import Mathlib

/-!
Shallow embedding of the vaccination reminder core of the PawPalace server
(`src/index.js`): the vaccination-history normalizer (`dedupeVaccinationsArray`),
the case-folded interval table (`normalizedIntervals`), the due-date evaluator
and notification dispatcher (`sendVaccinationReminders`), and the mail helper
(`sendReminderEmail`).

Modelling conventions:
* Calendar dates are day numbers (`Int`, days since 1970-01-01, UTC midnight).
  The JavaScript code compares dates as `YYYY-MM-DD` strings obtained from
  `toISOString`; for valid dates that lexicographic order coincides with the
  chronological order of day numbers, so window membership is compared on the
  day numbers directly.  `daysFromCivil` converts a civil `y-m-d` date to its
  day number (standard Gregorian algorithm) and is used to build concrete
  inputs such as `new Date("2024-01-10")`.
* A JavaScript `Date` value is `Option Int`: `some n` is a valid date at day
  `n`, `none` is an invalid date (`NaN` milliseconds).
* A stored vaccination entry field may be absent or falsy; `vaccineType` is
  `Option String` (`none` = missing/null, `some ""` = empty string, both
  falsy) and `date` is `Option (Option Int)` (outer `none` = missing/falsy
  field, `some none` = present but unparsable, `some (some n)` = parses to
  day `n`).
* The document store and the mail transport are external collaborators: the
  store lookups are functions returning `Except Unit _` (`.error` models a
  throwing query), and the mail transport is a function `Email → Bool` whose
  result is only observed in the fire-and-forget callback.  The pass returns
  the list of attempted emails paired with the transport outcome.
-/

/-- Model of JavaScript `String.prototype.trim` whitespace test
(restricted to the common ASCII whitespace characters). -/
def isJsSpace (c : Char) : Bool :=
  c == ' ' || c == '\t' || c == '\n' || c == '\r'

/-- Strip leading and trailing whitespace from a character list. -/
def trimChars (l : List Char) : List Char :=
  ((l.dropWhile isJsSpace).reverse.dropWhile isJsSpace).reverse

/-- Model of `String.prototype.trim`: strip leading and trailing whitespace. -/
def jsTrim (s : String) : String :=
  ⟨trimChars s.data⟩

/-- Model of `String.prototype.toLowerCase` (character-wise case folding). -/
def jsToLower (s : String) : String :=
  ⟨s.data.map Char.toLower⟩

/-- The dedup / lookup key used throughout the source:
`String(x).trim().toLowerCase()`. -/
def foldKey (t : String) : String :=
  jsToLower (jsTrim t)

/-- Truthiness of an optional string field: `none` (missing/null) and
`some ""` are falsy, every other string is truthy. -/
def truthyOpt : Option String → Bool
  | none => false
  | some s => !(s == "")

/-- One element of a pet's `vaccinations` array (`{ vaccineType, date }`).
`date`: outer `none` = field missing/falsy, `some none` = present but does
not parse (`new Date(...)` is `NaN`), `some (some n)` = parses to day `n`. -/
structure VaccEntry where
  vaccineType : Option String
  date : Option (Option Int)
deriving DecidableEq

/-- `new Date(v.date)` of an entry: an absent field gives an invalid date. -/
def entryTime (v : VaccEntry) : Option Int :=
  match v.date with
  | some jd => jd
  | none => none

/-- JavaScript `new Date(a) > new Date(b)`: any comparison involving an
invalid date (`NaN`) is false. -/
def jsGt : Option Int → Option Int → Bool
  | some a, some b => decide (b < a)
  | _, _ => false

/-- A pet document, restricted to the fields the reminder core reads:
`_id.toString()`, `pet_name`, and the `vaccinations` array. -/
structure Pet where
  petId : String
  pet_name : String
  vaccinations : List VaccEntry
deriving DecidableEq

/-- An adoption request document, restricted to the fields the dispatcher
reads. -/
structure AdoptionRecord where
  petId : String
  status : String
  adopterEmail : Option String
deriving DecidableEq

/-- A purchase document, restricted to the fields the dispatcher reads. -/
structure PurchaseRecord where
  petId : String
  buyerEmail : Option String
deriving DecidableEq

/-- An outgoing reminder email (`mailOptions` without the fixed `from`).
`toAddr` is the `to` field (`to` is reserved in Lean). -/
structure Email where
  toAddr : String
  subject : String
  body : String
deriving DecidableEq

/-- One due-vaccination occurrence: the data available inside the
notification branch of the evaluator loop for one (pet, interval-table key)
pair.  `key` is the loop's `vaccineKeyLower`, `vaccineTypeRaw` is
`latestForType.vaccineType` as stored (the filter guarantees it is a
non-empty string, so the raw optional value is unwrapped with default `""`). -/
structure DueEvent where
  petId : String
  pet_name : String
  key : String
  vaccineTypeRaw : String
  lastDoseDate : Int
  nextDueDate : Int
deriving DecidableEq

/-- Day number of a civil Gregorian date (days since 1970-01-01).  Standard
`days_from_civil` algorithm; models `new Date("YYYY-MM-DD")` at UTC
midnight. -/
def daysFromCivil (y m d : Int) : Int :=
  let yy := if m ≤ 2 then y - 1 else y
  let era := (if 0 ≤ yy then yy else yy - 399) / 400
  let yoe := yy - era * 400
  let doy := (153 * (if 2 < m then m - 3 else m + 9) + 2) / 5 + d - 1
  let doe := yoe * 365 + yoe / 4 - yoe / 100 + doy
  era * 146097 + doe - 719468

/-- The `vaccineIntervals` configuration object of `src/index.js`, as the
ordered key/value list of its literal. -/
def vaccineIntervals : List (String × Int) :=
  [("Rabies", 365),
   ("Canine Distemper Virus", 365),
   ("Canine Adenovirus (Hepatitis)", 365),
   ("Canine Parvovirus", 365),
   ("Canine Parainfluenza Virus", 365),
   ("Bordetella (Kennel Cough)", 180),
   ("Leptospirosis", 365),
   ("Canine Influenza", 365),
   ("Lyme Disease", 365),
   ("Feline Viral Rhinotracheitis (FHV-1)", 365),
   ("Feline Calicivirus (FCV)", 365),
   ("Feline Panleukopenia (FPV)", 365),
   ("Feline Leukemia Virus (FeLV)", 365),
   ("Feline Immunodeficiency Virus (FIV)", 365),
   ("Chlamydophila felis", 365),
   ("Myxomatosis", 365),
   ("Rabbit Haemorrhagic Disease (RHDV1 & RHDV2)", 365),
   ("Avian Polyomavirus (rare cases)", 365),
   ("Pigeon Pox (specific species)", 365),
   ("Spring Viremia of Carp (SVC)", 365),
   ("Aeromonas Vaccine", 365)]

/-- Assignment `m[k] = v` on a JavaScript object modelled as an ordered
key/value list: an existing key is updated in place, a new key is appended. -/
def objInsert (m : List (String × Int)) (k : String) (v : Int) : List (String × Int) :=
  if m.any (fun p => p.1 == k) then
    m.map (fun p => if p.1 == k then (k, v) else p)
  else
    m ++ [(k, v)]

/-- `normalizedIntervals`: the interval table re-keyed by
`k.toLowerCase()` via repeated object assignment (lines 81–84). -/
def normalizeIntervals (tbl : List (String × Int)) : List (String × Int) :=
  tbl.foldl (fun m kv => objInsert m (jsToLower kv.1) kv.2) []

/-- The `normalizedIntervals` constant of the source. -/
def normalizedIntervals : List (String × Int) :=
  normalizeIntervals vaccineIntervals

/-- Recursive worker of `dedupeVaccinationsArray`: `seen` is the set of keys
already kept (modelled as a list). -/
def dedupeGo (seen : List String) : List VaccEntry → List VaccEntry
  | [] => []
  | v :: rest =>
    match v.vaccineType with
    | none => dedupeGo seen rest
    | some t =>
      if t == "" then dedupeGo seen rest
      else
        let key := foldKey t
        if seen.contains key then dedupeGo seen rest
        else { vaccineType := some (jsTrim t), date := v.date } :: dedupeGo (key :: seen) rest

/-- `dedupeVaccinationsArray` (lines 110–124): drop entries with a falsy
`vaccineType`, key the rest by `trim().toLowerCase()`, keep the first
occurrence per key, storing the trimmed original casing and the date as-is. -/
def dedupeVaccinationsArray (vaccinations : List VaccEntry) : List VaccEntry :=
  dedupeGo [] vaccinations

/-- The dedup key of an entry as `dedupeVaccinationsArray` computes it, or
`none` when the entry is dropped (falsy `vaccineType`). -/
def keptKey (v : VaccEntry) : Option String :=
  match v.vaccineType with
  | none => none
  | some t => if t == "" then none else some (foldKey t)

/-- The case-folded key of an entry's `vaccineType` when the field is
present, with no truthiness check. -/
def entryKeyRaw (v : VaccEntry) : Option String :=
  v.vaccineType.map foldKey

/-- The shape in which `dedupeVaccinationsArray` stores a kept entry:
trimmed `vaccineType`, date unchanged. -/
def normEntry (v : VaccEntry) : VaccEntry :=
  { vaccineType := v.vaccineType.map jsTrim, date := v.date }

/-- The evaluator's per-type filter (lines 162–165): entries whose
`vaccineType` and `date` are truthy and whose folded type equals the
interval-table key. -/
def entriesForType (vaccs : List VaccEntry) (keyLower : String) : List VaccEntry :=
  vaccs.filter fun v =>
    match v.vaccineType, v.date with
    | some t, some _ => !(t == "") && (foldKey t == keyLower)
    | _, _ => false

/-- The evaluator's `reduce` (lines 170–172): fold the match list with the
first match as initial accumulator, replacing it whenever
`new Date(current.date) > new Date(latest.date)`. -/
def latestOf (e : VaccEntry) (l : List VaccEntry) : VaccEntry :=
  l.foldl (fun latest current => if jsGt (entryTime current) (entryTime latest) then current else latest) e

/-- One iteration of the evaluator's inner loop (lines 160–183) for a pet
and one `(vaccineKeyLower, intervalDays)` pair of the interval table:
`some` exactly when the notification branch is entered. -/
def evalPair (tomorrow dayAfter : Int) (pet : Pet) (keyLower : String) (intervalDays : Int) : Option DueEvent :=
  match entriesForType pet.vaccinations keyLower with
  | [] => none
  | e0 :: es =>
    let latest := latestOf e0 (e0 :: es)
    match entryTime latest with
    | none => none
    | some lastDate =>
      let nextDue := lastDate + intervalDays
      if tomorrow ≤ nextDue ∧ nextDue < dayAfter then
        some { petId := pet.petId, pet_name := pet.pet_name, key := keyLower,
               vaccineTypeRaw := latest.vaccineType.getD "",
               lastDoseDate := lastDate, nextDueDate := nextDue }
      else none

/-- All due occurrences of one pet: the inner loop over the interval table. -/
def dueEventsForPet (intervals : List (String × Int)) (tomorrow dayAfter : Int) (pet : Pet) : List DueEvent :=
  intervals.filterMap (fun kv => evalPair tomorrow dayAfter pet kv.1 kv.2)

/-- The evaluation pass of `sendVaccinationReminders` (lines 142–183):
`tomorrow = asOf + 1`, `dayAfter = asOf + 2`, pets with a non-empty
`vaccinations` array (the Mongo query), nested loop pet × interval table. -/
def computeDueEvents (pets : List Pet) (intervals : List (String × Int)) (asOf : Int) : List DueEvent :=
  let tomorrow := asOf + 1
  let dayAfter := asOf + 2
  (pets.filter (fun p => !p.vaccinations.isEmpty)).flatMap (dueEventsForPet intervals tomorrow dayAfter)

/-- Email body template of `sendReminderEmail` (line 97). -/
def mailBody (petName vaccineType : String) (vaccineDate : Int) : String :=
  s!"Hello,\n\nThis is a reminder that your pet \"{petName}\" needs the \"{vaccineType}\" vaccine on {vaccineDate}.\n\nRegards,\nPawPalace"

/-- `sendReminderEmail` (lines 87–104): a falsy recipient is a logged no-op;
otherwise one email is handed to the transport, whose success/failure is
only observed in the callback (paired with the email, never propagated). -/
def sendReminderEmail (transport : Email → Bool) (recipient : Option String)
    (petName vaccineType : String) (vaccineDate : Int) : List (Email × Bool) :=
  match recipient with
  | none => []
  | some t =>
    if t == "" then []
    else
      let m : Email := { toAddr := t, subject := "Vaccination Reminder for " ++ petName,
                         body := mailBody petName vaccineType vaccineDate }
      [(m, transport m)]

/-- `adoptionCollection.findOne({ petId, status: 'accepted' })` over a
list-backed store. -/
def findAcceptedAdoption (adoptions : List AdoptionRecord) (pid : String) : Option AdoptionRecord :=
  adoptions.find? (fun a => a.petId == pid && a.status == "accepted")

/-- `purchasesCollection.findOne({ petId })` over a list-backed store. -/
def findPurchaseRecord (purchases : List PurchaseRecord) (pid : String) : Option PurchaseRecord :=
  purchases.find? (fun r => r.petId == pid)

/-- A non-throwing adoption store backed by a record list. -/
def okAdoptionStore (adoptions : List AdoptionRecord) :
    String → Except Unit (Option AdoptionRecord) :=
  fun pid => .ok (findAcceptedAdoption adoptions pid)

/-- A non-throwing purchase store backed by a record list. -/
def okPurchaseStore (purchases : List PurchaseRecord) :
    String → Except Unit (Option PurchaseRecord) :=
  fun pid => .ok (findPurchaseRecord purchases pid)

/-- Adopter-side dispatch for one event (lines 184–200): the guard is
`adoption?.adopterEmail` (record found and email truthy). -/
def mailsForAdoption (transport : Email → Bool) (ev : DueEvent) : Option AdoptionRecord → List (Email × Bool)
  | some a =>
    if truthyOpt a.adopterEmail then
      sendReminderEmail transport a.adopterEmail ev.pet_name ev.vaccineTypeRaw ev.nextDueDate
    else []
  | none => []

/-- Buyer-side dispatch for one event (lines 202–217): the guard is
`purchase?.buyerEmail`. -/
def mailsForPurchase (transport : Email → Bool) (ev : DueEvent) : Option PurchaseRecord → List (Email × Bool)
  | some p =>
    if truthyOpt p.buyerEmail then
      sendReminderEmail transport p.buyerEmail ev.pet_name ev.vaccineTypeRaw ev.nextDueDate
    else []
  | none => []

/-- Dispatch of one due occurrence against fallible store lookups, in source
order: adoption lookup, adopter email, purchase lookup, buyer email.  The
`Bool` of the result is `true` when a store query threw; emails already
handed to the transport before the throw are kept. -/
def processEvent (findA : String → Except Unit (Option AdoptionRecord))
    (findP : String → Except Unit (Option PurchaseRecord))
    (transport : Email → Bool) (ev : DueEvent) : List (Email × Bool) × Bool :=
  match findA ev.petId with
  | .error _ => ([], true)
  | .ok adoption =>
    let m1 := mailsForAdoption transport ev adoption
    match findP ev.petId with
    | .error _ => (m1, true)
    | .ok purchase => (m1 ++ mailsForPurchase transport ev purchase, false)

/-- The dispatch loop over the due occurrences of a pass.  The whole pass
body runs inside one `try`/`catch` (lines 143, 221–223), so the first store
error ends the pass: the remaining occurrences are not processed. -/
def runPass (findA : String → Except Unit (Option AdoptionRecord))
    (findP : String → Except Unit (Option PurchaseRecord))
    (transport : Email → Bool) : List DueEvent → List (Email × Bool)
  | [] => []
  | ev :: rest =>
    let r := processEvent findA findP transport ev
    if r.2 then r.1 else r.1 ++ runPass findA findP transport rest

/-- `sendVaccinationReminders`, end to end: evaluation then dispatch.  In
the source, evaluation and dispatch are interleaved in one nested loop; the
evaluation is pure, so staging them yields the same email sequence and the
same abort behaviour. -/
def sendVaccinationReminders (pets : List Pet) (intervals : List (String × Int)) (asOf : Int)
    (findA : String → Except Unit (Option AdoptionRecord))
    (findP : String → Except Unit (Option PurchaseRecord))
    (transport : Email → Bool) : List (Email × Bool) :=
  runPass findA findP transport (computeDueEvents pets intervals asOf)

/-- The concrete scenario pet of the spec: "Bella", one Rabies dose given
2024-01-10. -/
def bella : Pet :=
  { petId := "pet-bella-1", pet_name := "Bella",
    vaccinations := [{ vaccineType := some "Rabies", date := some (some (daysFromCivil 2024 1 10)) }] }

/-- The scenario interval table `{"Rabies": 365}` after normalization. -/
def rabiesIntervals : List (String × Int) :=
  normalizeIntervals [("Rabies", 365)]

/-! ## Helper lemmas -/

/-- `trimChars` in terms of `List.rdropWhile`. -/
theorem trimChars_eq_rdrop (l : List Char) :
    trimChars l = List.rdropWhile isJsSpace (l.dropWhile isJsSpace) := rfl

/-- Trimming is idempotent. -/
theorem trimChars_idem (l : List Char) : trimChars (trimChars l) = trimChars l := by
  rw [trimChars_eq_rdrop, trimChars_eq_rdrop]
  have hA : List.dropWhile isJsSpace (l.dropWhile isJsSpace) = l.dropWhile isJsSpace :=
    List.dropWhile_idempotent _ _
  have hpre : List.rdropWhile isJsSpace (l.dropWhile isJsSpace) <+: l.dropWhile isJsSpace :=
    List.rdropWhile_prefix _ _
  have hm : List.dropWhile isJsSpace (List.rdropWhile isJsSpace (l.dropWhile isJsSpace)) =
      List.rdropWhile isJsSpace (l.dropWhile isJsSpace) := by
    obtain ⟨t, ht⟩ := hpre
    cases hmcase : List.rdropWhile isJsSpace (l.dropWhile isJsSpace) with
    | nil => rfl
    | cons c m2 =>
      have hA2 : l.dropWhile isJsSpace = c :: (m2 ++ t) := by
        rw [← ht, hmcase]
        simp
      have hne : l.dropWhile isJsSpace ≠ [] := by
        rw [hA2]
        simp
      have hnp := List.head_dropWhile_not isJsSpace l hne
      simp only [hA2, List.head_cons] at hnp
      rw [List.dropWhile_cons, if_neg (by simp [hnp])]
  rw [hm]
  exact List.rdropWhile_idempotent _ _

/-- `jsTrim` is idempotent. -/
theorem jsTrim_idem (s : String) : jsTrim (jsTrim s) = jsTrim s := by
  unfold jsTrim
  exact congrArg String.mk (trimChars_idem s.data)

/-- The dedup key of a trimmed string is the key of the original string. -/
theorem foldKey_jsTrim (t : String) : foldKey (jsTrim t) = foldKey t := by
  unfold foldKey
  rw [jsTrim_idem]

/-- A comparison against an invalid date is false. -/
theorem jsGt_none_right (a : Option Int) : jsGt a none = false := by
  cases a <;> rfl

/-- Characterization of a true JavaScript date comparison. -/
theorem jsGt_eq_true_iff (a b : Option Int) :
    jsGt a b = true ↔ ∃ x y : Int, a = some x ∧ b = some y ∧ y < x := by
  cases a <;> cases b <;> simp [jsGt]

/-- Unfolding a step of the evaluator's `reduce`. -/
theorem latestOf_cons (e c : VaccEntry) (l : List VaccEntry) :
    latestOf e (c :: l) =
      latestOf (if jsGt (entryTime c) (entryTime e) then c else e) l := rfl

/-- An accumulator holding an invalid date is never replaced: every
comparison against `NaN` is false. -/
theorem latestOf_nan (e : VaccEntry) (l : List VaccEntry) (h : entryTime e = none) :
    latestOf e l = e := by
  induction l with
  | nil => rfl
  | cons c l ih =>
    rw [latestOf_cons, h, jsGt_none_right]
    rw [if_neg (by simp)]
    exact ih

/-- The result of the `reduce` is the accumulator or one of the elements. -/
theorem latestOf_mem (e : VaccEntry) (l : List VaccEntry) :
    latestOf e l = e ∨ latestOf e l ∈ l := by
  induction l generalizing e with
  | nil => exact Or.inl rfl
  | cons c l ih =>
    rw [latestOf_cons]
    cases hg : jsGt (entryTime c) (entryTime e) with
    | true =>
      simp only [hg, if_true]
      rcases ih c with h | h
      · refine Or.inr ?_
        rw [h]
        exact List.mem_cons_self c l
      · exact Or.inr (List.mem_cons_of_mem _ h)
    | false =>
      simp only [hg, Bool.false_eq_true, if_false]
      rcases ih e with h | h
      · exact Or.inl h
      · exact Or.inr (List.mem_cons_of_mem _ h)

/-- When the accumulator's date is valid, the `reduce` result has a valid
date that dominates the accumulator and every valid date in the list. -/
theorem latestOf_max (l : List VaccEntry) (e : VaccEntry) (d0 : Int)
    (h : entryTime e = some d0) :
    ∃ d : Int, d0 ≤ d ∧ entryTime (latestOf e l) = some d ∧
      ∀ x ∈ l, ∀ dx : Int, entryTime x = some dx → dx ≤ d := by
  induction l generalizing e d0 with
  | nil => exact ⟨d0, le_refl _, by simpa [latestOf] using h, by simp⟩
  | cons c l ih =>
    rw [latestOf_cons]
    cases hg : jsGt (entryTime c) (entryTime e) with
    | true =>
      obtain ⟨x, y, hc, he, hlt⟩ := (jsGt_eq_true_iff _ _).mp hg
      have hy : d0 = y := by
        rw [h] at he
        exact Option.some_inj.mp he
      obtain ⟨d, hxd, htime, hbound⟩ := ih c x hc
      refine ⟨d, by omega, by simpa [hg] using htime, ?_⟩
      intro z hz dz hdz
      rcases List.mem_cons.mp hz with rfl | hz
      · rw [hc] at hdz
        have : dz = x := Option.some_inj.mp hdz.symm
        omega
      · exact hbound z hz dz hdz
    | false =>
      obtain ⟨d, hd0, htime, hbound⟩ := ih e d0 h
      refine ⟨d, hd0, by simpa [hg] using htime, ?_⟩
      intro z hz dz hdz
      rcases List.mem_cons.mp hz with rfl | hz
      · have : jsGt (entryTime z) (entryTime e) = false := hg
        rw [hdz, h] at this
        simp only [jsGt, decide_eq_false_iff_not, not_lt] at this
        omega
      · exact hbound z hz dz hdz

/-- A `filterMap` over an association list with distinct keys, by a function
that vanishes away from key `k`, reduces to its value at the unique entry
with key `k`. -/
theorem filterMap_unique_key {β : Type} (f : String × Int → Option β) (k : String) (I : Int)
    (l : List (String × Int)) (hnd : (l.map Prod.fst).Nodup) (hmem : (k, I) ∈ l)
    (hother : ∀ q ∈ l, q.1 ≠ k → f q = none) :
    l.filterMap f = (f (k, I)).toList := by
  induction l with
  | nil => cases hmem
  | cons q l ih =>
    rw [List.map_cons, List.nodup_cons] at hnd
    rcases List.mem_cons.mp hmem with rfl | hmem'
    · rw [List.filterMap_cons]
      have hrest : l.filterMap f = [] := by
        rw [List.filterMap_eq_nil_iff]
        intro a ha
        refine hother a (List.mem_cons_of_mem _ ha) ?_
        intro hk
        apply hnd.1
        show k ∈ List.map Prod.fst l
        rw [← hk]
        exact List.mem_map_of_mem Prod.fst ha
      cases hf : f (k, I) <;> simp [hf, hrest]
    · have hq : q.1 ≠ k := by
        intro hk
        refine hnd.1 ?_
        rw [hk]
        exact List.mem_map_of_mem Prod.fst hmem'
      rw [List.filterMap_cons, hother q (List.mem_cons_self q l) hq]
      exact ih hnd.2 hmem' (fun q' hq' => hother q' (List.mem_cons_of_mem _ hq'))

/-- Object assignment preserves distinctness of keys. -/
theorem objInsert_keys_nodup (m : List (String × Int)) (k : String) (v : Int)
    (h : (m.map Prod.fst).Nodup) : ((objInsert m k v).map Prod.fst).Nodup := by
  unfold objInsert
  split
  · have hmap : ((m.map (fun p => if p.1 == k then (k, v) else p)).map Prod.fst) =
        m.map Prod.fst := by
      rw [List.map_map]
      refine List.map_congr_left ?_
      intro p _
      simp only [Function.comp_apply]
      by_cases hpk : p.1 == k
      · simp only [hpk, if_true]
        exact ((beq_iff_eq).mp hpk).symm
      · simp [hpk]
    rw [hmap]
    exact h
  · next hany =>
    rw [List.map_append, List.nodup_append]
    refine ⟨h, by simp, ?_⟩
    intro a ha hb
    simp only [List.map_cons, List.map_nil, List.mem_singleton] at hb
    subst hb
    rw [List.mem_map] at ha
    obtain ⟨p, hp, hpk⟩ := ha
    rw [List.any_eq_true] at hany
    exact hany ⟨p, hp, by simp [hpk]⟩

/-- `normalizedIntervals` has pairwise-distinct keys: a JavaScript object
has at most one property per name. -/
theorem normalizeIntervals_keys_nodup (tbl : List (String × Int)) :
    ((normalizeIntervals tbl).map Prod.fst).Nodup := by
  suffices h : ∀ m : List (String × Int), (m.map Prod.fst).Nodup →
      ((tbl.foldl (fun m kv => objInsert m (jsToLower kv.1) kv.2) m).map Prod.fst).Nodup by
    exact h [] (by simp)
  induction tbl with
  | nil => intro m hm; exact hm
  | cons kv tbl ih =>
    intro m hm
    exact ih _ (objInsert_keys_nodup _ _ _ hm)

/-- Folding over a one-element list returns that element: the self
comparison of the `reduce` initial value is false either way. -/
theorem latestOf_single (v : VaccEntry) : latestOf v [v] = v := by
  unfold latestOf
  rw [List.foldl_cons, List.foldl_nil, ite_self]

/-- Every element the per-type filter keeps is a stored entry with a truthy
`vaccineType` folding to the table key and a truthy `date` field. -/
theorem mem_entriesForType {vaccs : List VaccEntry} {k : String} {v : VaccEntry}
    (h : v ∈ entriesForType vaccs k) :
    v ∈ vaccs ∧ ∃ t, v.vaccineType = some t ∧ t ≠ "" ∧ foldKey t = k ∧ v.date ≠ none := by
  unfold entriesForType at h
  obtain ⟨hmem, hpred⟩ := List.mem_filter.mp h
  refine ⟨hmem, ?_⟩
  cases hvt : v.vaccineType with
  | none =>
    rw [hvt] at hpred
    simp at hpred
  | some t =>
    cases hvd : v.date with
    | none =>
      rw [hvt, hvd] at hpred
      simp at hpred
    | some jd =>
      rw [hvt, hvd] at hpred
      simp only [Bool.and_eq_true, Bool.not_eq_true', beq_eq_false_iff_ne, ne_eq,
        beq_iff_eq] at hpred
      exact ⟨t, rfl, hpred.1, hpred.2, by simp [hvd]⟩

/-- Everything the notification branch guarantees about an emitted
occurrence: its identity fields, that a matching entry existed, that the
reported vaccine type is a truthy stored string folding to the table key,
and that the due date lies in the one-day window. -/
theorem evalPair_eq_some {tom day : Int} {pet : Pet} {k : String} {I : Int} {ev : DueEvent}
    (h : evalPair tom day pet k I = some ev) :
    ev.petId = pet.petId ∧ ev.pet_name = pet.pet_name ∧ ev.key = k ∧
    entriesForType pet.vaccinations k ≠ [] ∧
    ev.vaccineTypeRaw ≠ "" ∧ foldKey ev.vaccineTypeRaw = k ∧
    ev.nextDueDate = ev.lastDoseDate + I ∧ tom ≤ ev.nextDueDate ∧ ev.nextDueDate < day := by
  unfold evalPair at h
  cases hE : entriesForType pet.vaccinations k with
  | nil =>
    rw [hE] at h
    simp at h
  | cons e0 es =>
    rw [hE] at h
    simp only at h
    cases hT : entryTime (latestOf e0 (e0 :: es)) with
    | none =>
      rw [hT] at h
      simp at h
    | some lastDate =>
      rw [hT] at h
      simp only at h
      by_cases hw : tom ≤ lastDate + I ∧ lastDate + I < day
      · rw [if_pos hw] at h
        have hev := Option.some_inj.mp h
        have hlmem : latestOf e0 (e0 :: es) ∈ entriesForType pet.vaccinations k := by
          rw [hE]
          rcases latestOf_mem e0 (e0 :: es) with h1 | h1
          · rw [h1]
            exact List.mem_cons_self _ _
          · exact h1
        obtain ⟨-, t, hvt, ht0, htk, -⟩ := mem_entriesForType hlmem
        have hraw : (latestOf e0 (e0 :: es)).vaccineType.getD "" = t := by
          rw [hvt]
          rfl
        refine ⟨?_, ?_, ?_, by simp [hE], ?_, ?_, ?_, ?_, ?_⟩ <;>
          rw [← hev] <;> simp [hraw, ht0, htk, hw.1, hw.2]
      · rw [if_neg hw] at h
        simp at h

/-- Claim C1: for a pet with a single dose of type `T` on valid date `D`,
where the (case-folded) type maps to interval `I` in the interval table,
the evaluation pass enters the notification branch exactly once — emitting
the one DueEvent for `T` — when `asOf = D + I - 1`, and emits none when
`asOf = D + I - 2` or `asOf = D + I`. -/
theorem C1_single_dose_window (T : String) (D I : Int) (intervals : List (String × Int))
    (pid pname : String) (hT : T ≠ "")
    (hnd : (intervals.map Prod.fst).Nodup) (hmem : (foldKey T, I) ∈ intervals) :
    computeDueEvents [⟨pid, pname, [⟨some T, some (some D)⟩]⟩] intervals (D + I - 1) =
      [⟨pid, pname, foldKey T, T, D, D + I⟩] ∧
    computeDueEvents [⟨pid, pname, [⟨some T, some (some D)⟩]⟩] intervals (D + I - 2) = [] ∧
    computeDueEvents [⟨pid, pname, [⟨some T, some (some D)⟩]⟩] intervals (D + I) = [] := by
  have hfilter : ∀ k' : String, entriesForType [(⟨some T, some (some D)⟩ : VaccEntry)] k' =
      if foldKey T = k' then [⟨some T, some (some D)⟩] else [] := by
    intro k'
    unfold entriesForType
    rw [List.filter_cons, List.filter_nil]
    by_cases hk : foldKey T = k'
    · rw [if_pos hk]
      simp [hT, hk]
    · rw [if_neg hk]
      simp [hT, hk]
  have hmain : ∀ asOf : Int,
      computeDueEvents [⟨pid, pname, [⟨some T, some (some D)⟩]⟩] intervals asOf =
      if asOf + 1 ≤ D + I ∧ D + I < asOf + 2 then
        [⟨pid, pname, foldKey T, T, D, D + I⟩] else [] := by
    intro asOf
    unfold computeDueEvents
    simp only [List.filter_cons, List.filter_nil, List.isEmpty_cons, Bool.not_false,
      if_pos, List.flatMap_cons, List.flatMap_nil, List.append_nil]
    unfold dueEventsForPet
    have hother : ∀ q ∈ intervals, q.1 ≠ foldKey T →
        evalPair (asOf + 1) (asOf + 2) ⟨pid, pname, [⟨some T, some (some D)⟩]⟩ q.1 q.2 = none := by
      intro q _ hq
      unfold evalPair
      rw [show (⟨pid, pname, [⟨some T, some (some D)⟩]⟩ : Pet).vaccinations =
        [⟨some T, some (some D)⟩] from rfl]
      rw [hfilter q.1, if_neg (fun hh => hq hh.symm)]
    rw [filterMap_unique_key _ (foldKey T) I intervals hnd hmem hother]
    unfold evalPair
    rw [show (⟨pid, pname, [⟨some T, some (some D)⟩]⟩ : Pet).vaccinations =
      [⟨some T, some (some D)⟩] from rfl]
    rw [hfilter (foldKey T), if_pos rfl]
    simp only [latestOf_single,
      show entryTime (⟨some T, some (some D)⟩ : VaccEntry) = some D from rfl,
      Option.getD_some]
    by_cases hw : asOf + 1 ≤ D + I ∧ D + I < asOf + 2
    · rw [if_pos hw, if_pos hw]
      rfl
    · rw [if_neg hw, if_neg hw]
      rfl
  refine ⟨?_, ?_, ?_⟩
  · rw [hmain, if_pos (by omega)]
  · rw [hmain, if_neg (by omega)]
  · rw [hmain, if_neg (by omega)]

/-- Witness for C1 at a concrete input: type "Rabies", dose on day 0,
interval 10 days, table `[("rabies", 10)]`. -/
theorem C1_single_dose_window_witness :
    (("Rabies" : String) ≠ "") ∧
    (([("rabies", (10 : Int))].map Prod.fst).Nodup) ∧
    ((foldKey "Rabies", (10 : Int)) ∈ [("rabies", (10 : Int))]) ∧
    (computeDueEvents [⟨"p1", "Bella", [⟨some "Rabies", some (some 0)⟩]⟩] [("rabies", 10)] 9 =
      [⟨"p1", "Bella", foldKey "Rabies", "Rabies", 0, 10⟩] ∧
     computeDueEvents [⟨"p1", "Bella", [⟨some "Rabies", some (some 0)⟩]⟩] [("rabies", 10)] 8 = [] ∧
     computeDueEvents [⟨"p1", "Bella", [⟨some "Rabies", some (some 0)⟩]⟩] [("rabies", 10)] 10 = []) := by
  refine ⟨by decide, by decide, by decide, ?_⟩
  have h := C1_single_dose_window "Rabies" 0 10 [("rabies", 10)] "p1" "Bella"
    (by decide) (by decide) (by decide)
  simpa using h

/-- Claim C2, counterexample: with interval table `{"Rabies": 365}` and
Bella's single dose on 2024-01-10, running the pass with
`asOf = 2025-01-09` emits NO DueEvent, contrary to the claimed "exactly
one": 2024 is a leap year, so `2024-01-10 + 365 days = 2025-01-09`, not
the claimed `2025-01-10`, and `2025-01-09` is not in the window
`[2025-01-10, 2025-01-11)`. -/
theorem C2_rabies_scenario_cex :
    computeDueEvents [bella] rabiesIntervals (daysFromCivil 2025 1 9) = [] ∧
    daysFromCivil 2024 1 10 + 365 ≠ daysFromCivil 2025 1 10 := by
  constructor
  · decide
  · decide

/-- Claim C2 as amended: the computed `nextDueDate` is 2025-01-09
(`2024-01-10 + 365` days across the 2024 leap day), so the pass emits
exactly one DueEvent when `asOf = 2025-01-08` (window
`[2025-01-09, 2025-01-10)`), and none when `asOf = 2025-01-09`. -/
theorem C2_rabies_scenario_amended :
    computeDueEvents [bella] rabiesIntervals (daysFromCivil 2025 1 8) =
      [⟨"pet-bella-1", "Bella", "rabies", "Rabies",
        daysFromCivil 2024 1 10, daysFromCivil 2025 1 9⟩] ∧
    computeDueEvents [bella] rabiesIntervals (daysFromCivil 2025 1 9) = [] ∧
    daysFromCivil 2024 1 10 + 365 = daysFromCivil 2025 1 9 := by
  refine ⟨by decide, by decide, by decide⟩

/-- Normalizer step: an entry with a missing/null `vaccineType` is dropped. -/
theorem dedupeGo_cons_none (seen : List String) (rest : List VaccEntry) (v : VaccEntry)
    (h : v.vaccineType = none) :
    dedupeGo seen (v :: rest) = dedupeGo seen rest := by
  conv_lhs => unfold dedupeGo
  rw [h]

/-- Normalizer step: an entry with an empty-string `vaccineType` is dropped. -/
theorem dedupeGo_cons_empty (seen : List String) (rest : List VaccEntry) (v : VaccEntry)
    (t : String) (h : v.vaccineType = some t) (ht : t = "") :
    dedupeGo seen (v :: rest) = dedupeGo seen rest := by
  conv_lhs => unfold dedupeGo
  rw [h]
  simp [ht]

/-- Normalizer step: an entry whose key was already seen is dropped. -/
theorem dedupeGo_cons_seen (seen : List String) (rest : List VaccEntry) (v : VaccEntry)
    (t : String) (h : v.vaccineType = some t) (ht : ¬t = "")
    (hs : seen.contains (foldKey t) = true) :
    dedupeGo seen (v :: rest) = dedupeGo seen rest := by
  conv_lhs => unfold dedupeGo
  rw [h]
  have hs2 : foldKey t ∈ seen := by simpa using hs
  simp [ht, hs2]

/-- Normalizer step: a first occurrence is kept, trimmed, and its key is
recorded. -/
theorem dedupeGo_cons_keep (seen : List String) (rest : List VaccEntry) (v : VaccEntry)
    (t : String) (h : v.vaccineType = some t) (ht : ¬t = "")
    (hs : seen.contains (foldKey t) = false) :
    dedupeGo seen (v :: rest) =
      ⟨some (jsTrim t), v.date⟩ :: dedupeGo (foldKey t :: seen) rest := by
  conv_lhs => unfold dedupeGo
  rw [h]
  have hs2 : foldKey t ∉ seen := by simpa using hs
  simp [ht, hs2]

/-- Output of the normalizer worker restricted to one dedup key `k`: empty
when `k` was already seen, otherwise exactly the trim-normalized first kept
input entry whose key is `k` (or empty when there is none). -/
theorem dedupeGo_filter (k : String) :
    ∀ (l : List VaccEntry) (seen : List String),
      (dedupeGo seen l).filter (fun u => entryKeyRaw u == some k) =
        if seen.contains k then []
        else ((l.find? (fun v => keptKey v == some k)).map normEntry).toList := by
  intro l
  induction l with
  | nil =>
    intro seen
    cases h : seen.contains k <;> simp [dedupeGo, h]
  | cons v rest ih =>
    intro seen
    cases hvt : v.vaccineType with
    | none =>
      have hkk : keptKey v = none := by
        unfold keptKey
        rw [hvt]
      rw [dedupeGo_cons_none seen rest v hvt, ih seen,
        List.find?_cons_of_neg _ (by simp [hkk])]
    | some t =>
      by_cases ht : t = ""
      · have hkk : keptKey v = none := by
          unfold keptKey
          rw [hvt]
          simp [ht]
        rw [dedupeGo_cons_empty seen rest v t hvt ht, ih seen,
          List.find?_cons_of_neg _ (by simp [hkk])]
      · have hkk : keptKey v = some (foldKey t) := by
          unfold keptKey
          rw [hvt]
          simp [ht]
        cases hseen : seen.contains (foldKey t) with
        | true =>
          rw [dedupeGo_cons_seen seen rest v t hvt ht hseen, ih seen]
          by_cases hk : foldKey t = k
          · rw [if_pos (hk ▸ hseen), if_pos (hk ▸ hseen)]
          · rw [List.find?_cons_of_neg _ (by simp [hkk, hk])]
        | false =>
          rw [dedupeGo_cons_keep seen rest v t hvt ht hseen, List.filter_cons]
          by_cases hk : foldKey t = k
          · have hcond : (entryKeyRaw ⟨some (jsTrim t), v.date⟩ == some k) = true := by
              simp [entryKeyRaw, foldKey_jsTrim, hk]
            rw [if_pos hcond, ih (foldKey t :: seen)]
            rw [if_pos (by simp [hk]), if_neg (by rw [← hk]; simpa using hseen)]
            rw [List.find?_cons_of_pos _ (by simp [hkk, hk])]
            simp [normEntry, hvt]
          · have hcond : (entryKeyRaw ⟨some (jsTrim t), v.date⟩ == some k) = false := by
              simp [entryKeyRaw, foldKey_jsTrim, hk]
            rw [if_neg (by simp [hcond]), ih (foldKey t :: seen)]
            have hcont : (foldKey t :: seen).contains k = seen.contains k := by
              rw [List.contains_cons,
                beq_eq_false_iff_ne.mpr (fun hh : k = foldKey t => hk hh.symm),
                Bool.false_or]
            rw [hcont, List.find?_cons_of_neg _ (by simp [hkk, hk])]

/-- Claim C3: for every input sequence and every case-folded trimmed vaccine
type `k`, the Normalizer's output contains exactly one entry with key `k`
when some kept input entry has key `k` — namely the first such occurrence in
input order (`find?`), regardless of dates, with its `vaccineType` trimmed
but in original casing and its `date` passed through unvalidated — and no
entry with key `k` otherwise. -/
theorem C3_dedupe_first_seen_per_key (l : List VaccEntry) (k : String) :
    (dedupeVaccinationsArray l).filter (fun u => entryKeyRaw u == some k) =
      ((l.find? (fun v => keptKey v == some k)).map normEntry).toList := by
  rw [dedupeVaccinationsArray, dedupeGo_filter k l []]
  simp

/-- Every entry the normalizer outputs arises from an input entry whose
`vaccineType` was truthy (present and non-empty before trimming), stored
trimmed with its date unchanged. -/
theorem dedupeGo_sound (l : List VaccEntry) :
    ∀ (seen : List String) (u : VaccEntry), u ∈ dedupeGo seen l →
      ∃ v ∈ l, ∃ t, v.vaccineType = some t ∧ t ≠ "" ∧ u = ⟨some (jsTrim t), v.date⟩ := by
  induction l with
  | nil =>
    intro seen u h
    simp [dedupeGo] at h
  | cons v rest ih =>
    intro seen u h
    cases hvt : v.vaccineType with
    | none =>
      rw [dedupeGo_cons_none seen rest v hvt] at h
      obtain ⟨w, hw, t, h1, h2, h3⟩ := ih seen u h
      exact ⟨w, List.mem_cons_of_mem _ hw, t, h1, h2, h3⟩
    | some t =>
      by_cases ht : t = ""
      · rw [dedupeGo_cons_empty seen rest v t hvt ht] at h
        obtain ⟨w, hw, t2, h1, h2, h3⟩ := ih seen u h
        exact ⟨w, List.mem_cons_of_mem _ hw, t2, h1, h2, h3⟩
      · cases hseen : seen.contains (foldKey t) with
        | true =>
          rw [dedupeGo_cons_seen seen rest v t hvt ht hseen] at h
          obtain ⟨w, hw, t2, h1, h2, h3⟩ := ih seen u h
          exact ⟨w, List.mem_cons_of_mem _ hw, t2, h1, h2, h3⟩
        | false =>
          rw [dedupeGo_cons_keep seen rest v t hvt ht hseen] at h
          rcases List.mem_cons.mp h with rfl | h2
          · exact ⟨v, List.mem_cons_self _ _, t, hvt, ht, rfl⟩
          · obtain ⟨w, hw, t2, h1, h2, h3⟩ := ih (foldKey t :: seen) u h2
            exact ⟨w, List.mem_cons_of_mem _ hw, t2, h1, h2, h3⟩

/-- Claim C7, counterexample: an entry whose vaccine type is whitespace-only
(empty AFTER trimming, but truthy before) is NOT dropped: it survives into
the output, trimmed to the empty string.  The code's drop test
`!v.vaccineType` runs before `trim()`. -/
theorem C7_whitespace_type_cex :
    jsTrim " " = "" ∧
    dedupeVaccinationsArray [⟨some " ", some (some 0)⟩] = [⟨some "", some (some 0)⟩] := by
  constructor
  · decide
  · decide

/-- Claim C7 as amended: the Normalizer drops every entry whose vaccine type
is missing, null, or the empty string BEFORE trimming — every output entry
arises from an input entry with a truthy (present, non-empty) vaccine type,
stored whitespace-trimmed; a whitespace-only vaccine type is truthy and is
therefore retained (with empty trimmed string), not dropped. -/
theorem C7_drops_falsy_types (l : List VaccEntry) (u : VaccEntry)
    (h : u ∈ dedupeVaccinationsArray l) :
    ∃ v ∈ l, ∃ t, v.vaccineType = some t ∧ t ≠ "" ∧ u = ⟨some (jsTrim t), v.date⟩ :=
  dedupeGo_sound l [] u h

/-- Witness for C7 at a concrete input. -/
theorem C7_drops_falsy_types_witness :
    ((⟨some "A", some (some 0)⟩ : VaccEntry) ∈
      dedupeVaccinationsArray [⟨some "A", some (some 0)⟩, ⟨none, some (some 1)⟩, ⟨some "", some (some 2)⟩]) ∧
    (∃ v ∈ [(⟨some "A", some (some 0)⟩ : VaccEntry), ⟨none, some (some 1)⟩, ⟨some "", some (some 2)⟩],
      ∃ t, v.vaccineType = some t ∧ t ≠ "" ∧
        (⟨some "A", some (some 0)⟩ : VaccEntry) = ⟨some (jsTrim t), v.date⟩) :=
  ⟨by decide, C7_drops_falsy_types _ _ (by decide)⟩

/-- On inputs where no kept entry's key is the empty string (no
whitespace-only vaccine type), the normalizer worker is idempotent. -/
theorem dedupeGo_idem (l : List VaccEntry) (H : ∀ v ∈ l, keptKey v ≠ some "") :
    ∀ seen : List String, dedupeGo seen (dedupeGo seen l) = dedupeGo seen l := by
  induction l with
  | nil => intro seen; rfl
  | cons v rest ih =>
    have H2 : ∀ w ∈ rest, keptKey w ≠ some "" := fun w hw => H w (List.mem_cons_of_mem _ hw)
    intro seen
    cases hvt : v.vaccineType with
    | none =>
      rw [dedupeGo_cons_none seen rest v hvt]
      exact ih H2 seen
    | some t =>
      by_cases ht : t = ""
      · rw [dedupeGo_cons_empty seen rest v t hvt ht]
        exact ih H2 seen
      · cases hseen : seen.contains (foldKey t) with
        | true =>
          rw [dedupeGo_cons_seen seen rest v t hvt ht hseen]
          exact ih H2 seen
        | false =>
          rw [dedupeGo_cons_keep seen rest v t hvt ht hseen]
          have hkk : keptKey v = some (foldKey t) := by
            unfold keptKey
            rw [hvt]
            simp [ht]
          have hfk : foldKey t ≠ "" := by
            intro hfe
            exact H v (List.mem_cons_self _ _) (by rw [hkk, hfe])
          have htrim : jsTrim t ≠ "" := by
            intro hte
            refine hfk ?_
            unfold foldKey
            rw [hte]
            rfl
          have hs2 : seen.contains (foldKey (jsTrim t)) = false := by
            rw [foldKey_jsTrim]
            exact hseen
          rw [dedupeGo_cons_keep seen (dedupeGo (foldKey t :: seen) rest)
            ⟨some (jsTrim t), v.date⟩ (jsTrim t) rfl htrim hs2]
          rw [jsTrim_idem, foldKey_jsTrim, ih H2 (foldKey t :: seen)]

/-- Claim C10, counterexample: the Normalizer is not idempotent.  An entry
with whitespace-only vaccine type survives the first pass with its type
trimmed to the empty string, and the second pass drops that (now falsy)
entry. -/
theorem C10_idempotence_cex :
    dedupeVaccinationsArray (dedupeVaccinationsArray [⟨some " ", some (some 0)⟩]) ≠
      dedupeVaccinationsArray [⟨some " ", some (some 0)⟩] := by
  decide

/-- Claim C10 as amended: the Normalizer is idempotent on every input with
no whitespace-only vaccine type, i.e. on inputs where no kept entry's dedup
key is the empty string. -/
theorem C10_idempotent_on_nonblank (l : List VaccEntry)
    (H : ∀ v ∈ l, keptKey v ≠ some "") :
    dedupeVaccinationsArray (dedupeVaccinationsArray l) = dedupeVaccinationsArray l :=
  dedupeGo_idem l H []

/-- Witness for the amended C10 at a concrete input. -/
theorem C10_idempotent_on_nonblank_witness :
    (∀ v ∈ [(⟨some "Rabies ", some (some 3)⟩ : VaccEntry), ⟨some "rabies", some (some 5)⟩],
      keptKey v ≠ some "") ∧
    dedupeVaccinationsArray (dedupeVaccinationsArray
        [⟨some "Rabies ", some (some 3)⟩, ⟨some "rabies", some (some 5)⟩]) =
      dedupeVaccinationsArray [⟨some "Rabies ", some (some 3)⟩, ⟨some "rabies", some (some 5)⟩] :=
  ⟨by decide, C10_idempotent_on_nonblank _ (by decide)⟩

/-- Claim C4, counterexample: with two matching entries whose FIRST has an
unparsable date and whose second is a valid dose inside the due window, the
evaluator emits NO event — the `reduce` keeps the unparsable first entry
(every `>` comparison against `NaN` is false) and the `isNaN` check then
skips the pair — whereas selecting the entry with the maximum parsed date
(the valid dose, as the claim states) would emit one, as the second
conjunct shows for the same pet without the unparsable entry. -/
theorem C4_nan_first_entry_cex :
    computeDueEvents
      [⟨"p1", "Bella", [⟨some "Rabies", some none⟩, ⟨some "Rabies", some (some 0)⟩]⟩]
      [("rabies", 10)] 9 = [] ∧
    computeDueEvents [⟨"p1", "Bella", [⟨some "Rabies", some (some 0)⟩]⟩]
      [("rabies", 10)] 9 =
      [⟨"p1", "Bella", "rabies", "Rabies", 0, 10⟩] := by
  constructor
  · decide
  · decide

/-- Claim C4 as amended: among the matching entries of a (pet, vaccine type)
pair, when the FIRST match's date parses, the selected entry is a match
whose date parses and dominates every parseable match (the latest
administered dose); when the first match's date is unparsable it is itself
selected (comparisons against `NaN` are all false, shadowing later valid
doses); and whenever the selected entry's date fails to parse the pair is
skipped with no DueEvent. -/
theorem C4_latest_selection (tom day : Int) (pet : Pet) (k : String) (I : Int)
    (e0 : VaccEntry) (es : List VaccEntry)
    (hE : entriesForType pet.vaccinations k = e0 :: es) :
    (∀ d0 : Int, entryTime e0 = some d0 →
       ∃ d : Int, entryTime (latestOf e0 (e0 :: es)) = some d ∧
         latestOf e0 (e0 :: es) ∈ e0 :: es ∧
         ∀ e ∈ e0 :: es, ∀ de : Int, entryTime e = some de → de ≤ d) ∧
    (entryTime e0 = none → latestOf e0 (e0 :: es) = e0) ∧
    (entryTime (latestOf e0 (e0 :: es)) = none → evalPair tom day pet k I = none) := by
  refine ⟨?_, ?_, ?_⟩
  · intro d0 h0
    obtain ⟨d, _, htime, hbound⟩ := latestOf_max (e0 :: es) e0 d0 h0
    refine ⟨d, htime, ?_, hbound⟩
    rcases latestOf_mem e0 (e0 :: es) with h | h
    · rw [h]
      exact List.mem_cons_self _ _
    · exact h
  · intro h0
    exact latestOf_nan e0 (e0 :: es) h0
  · intro hnone
    unfold evalPair
    rw [hE]
    simp only
    rw [hnone]

/-- Witness for the amended C4 at a concrete input. -/
theorem C4_latest_selection_witness :
    (entriesForType
        [(⟨some "Rabies", some (some 5)⟩ : VaccEntry), ⟨some "rabies ", some (some 3)⟩]
        "rabies" =
      [⟨some "Rabies", some (some 5)⟩, ⟨some "rabies ", some (some 3)⟩]) ∧
    ((∀ d0 : Int, entryTime ⟨some "Rabies", some (some 5)⟩ = some d0 →
       ∃ d : Int,
         entryTime (latestOf ⟨some "Rabies", some (some 5)⟩
           [⟨some "Rabies", some (some 5)⟩, ⟨some "rabies ", some (some 3)⟩]) = some d ∧
         latestOf ⟨some "Rabies", some (some 5)⟩
             [⟨some "Rabies", some (some 5)⟩, ⟨some "rabies ", some (some 3)⟩] ∈
           [⟨some "Rabies", some (some 5)⟩, ⟨some "rabies ", some (some 3)⟩] ∧
         ∀ e ∈ [(⟨some "Rabies", some (some 5)⟩ : VaccEntry), ⟨some "rabies ", some (some 3)⟩],
           ∀ de : Int, entryTime e = some de → de ≤ d) ∧
     (entryTime ⟨some "Rabies", some (some 5)⟩ = none →
       latestOf ⟨some "Rabies", some (some 5)⟩
         [⟨some "Rabies", some (some 5)⟩, ⟨some "rabies ", some (some 3)⟩] =
         ⟨some "Rabies", some (some 5)⟩) ∧
     (entryTime (latestOf ⟨some "Rabies", some (some 5)⟩
         [⟨some "Rabies", some (some 5)⟩, ⟨some "rabies ", some (some 3)⟩]) = none →
       evalPair 99 100
         ⟨"p1", "Bella", [⟨some "Rabies", some (some 5)⟩, ⟨some "rabies ", some (some 3)⟩]⟩
         "rabies" 10 = none)) :=
  ⟨by decide,
   C4_latest_selection 99 100
     ⟨"p1", "Bella", [⟨some "Rabies", some (some 5)⟩, ⟨some "rabies ", some (some 3)⟩]⟩
     "rabies" 10 _ _ (by decide)⟩

/-- Claim C5: for a DueEvent, when both an adoption with status exactly
"accepted" carrying a non-empty adopter email and a purchase carrying a
non-empty buyer email are found, exactly two reminder emails are attempted,
one to each address, and no error is raised; when neither record is found,
zero emails and no error; when records are found but the recipient address
is missing or empty, no email and no failure. -/
theorem C5_dispatch_recipients (ev : DueEvent) (transport : Email → Bool)
    (adoptions adoptions2 adoptions3 : List AdoptionRecord)
    (purchases purchases2 purchases3 : List PurchaseRecord)
    (a a3 : AdoptionRecord) (p p3 : PurchaseRecord) (emA emB : String)
    (hfa : findAcceptedAdoption adoptions ev.petId = some a)
    (hfp : findPurchaseRecord purchases ev.petId = some p)
    (ha : a.adopterEmail = some emA) (hemA : emA ≠ "")
    (hp : p.buyerEmail = some emB) (hemB : emB ≠ "")
    (hfa2 : findAcceptedAdoption adoptions2 ev.petId = none)
    (hfp2 : findPurchaseRecord purchases2 ev.petId = none)
    (hfa3 : findAcceptedAdoption adoptions3 ev.petId = some a3)
    (hfp3 : findPurchaseRecord purchases3 ev.petId = some p3)
    (ha3 : a3.adopterEmail = none ∨ a3.adopterEmail = some "")
    (hp3 : p3.buyerEmail = none ∨ p3.buyerEmail = some "") :
    ((processEvent (okAdoptionStore adoptions) (okPurchaseStore purchases) transport ev).1.map
        (fun m => m.1.toAddr) = [emA, emB] ∧
      (processEvent (okAdoptionStore adoptions) (okPurchaseStore purchases) transport ev).2 = false) ∧
    ((processEvent (okAdoptionStore adoptions2) (okPurchaseStore purchases2) transport ev).1 = [] ∧
      (processEvent (okAdoptionStore adoptions2) (okPurchaseStore purchases2) transport ev).2 = false) ∧
    ((processEvent (okAdoptionStore adoptions3) (okPurchaseStore purchases3) transport ev).1 = [] ∧
      (processEvent (okAdoptionStore adoptions3) (okPurchaseStore purchases3) transport ev).2 = false) := by
  refine ⟨?_, ?_, ?_⟩
  · constructor
    · simp [processEvent, okAdoptionStore, okPurchaseStore, hfa, hfp, mailsForAdoption,
        mailsForPurchase, truthyOpt, ha, hp, hemA, hemB, sendReminderEmail]
    · simp [processEvent, okAdoptionStore, okPurchaseStore, hfa, hfp]
  · constructor
    · simp [processEvent, okAdoptionStore, okPurchaseStore, hfa2, hfp2, mailsForAdoption,
        mailsForPurchase]
    · simp [processEvent, okAdoptionStore, okPurchaseStore, hfa2, hfp2]
  · constructor
    · rcases ha3 with h | h <;> rcases hp3 with h2 | h2 <;>
        simp [processEvent, okAdoptionStore, okPurchaseStore, hfa3, hfp3, mailsForAdoption,
          mailsForPurchase, truthyOpt, h, h2]
    · simp [processEvent, okAdoptionStore, okPurchaseStore, hfa3, hfp3]

/-- Witness for C5 at concrete stores: an accepted adoption plus a purchase
for "p1" (two emails); a pending-only adoption store and empty purchase
store (nothing found, zero emails); an accepted adoption with empty email
and a purchase with missing email (no email, no failure). -/
theorem C5_dispatch_recipients_witness :
    (findAcceptedAdoption [⟨"p1", "accepted", some "adopter@x"⟩] "p1" =
        some ⟨"p1", "accepted", some "adopter@x"⟩) ∧
    (findPurchaseRecord [⟨"p1", some "buyer@x"⟩] "p1" = some ⟨"p1", some "buyer@x"⟩) ∧
    ((⟨"p1", "accepted", some "adopter@x"⟩ : AdoptionRecord).adopterEmail = some "adopter@x") ∧
    (("adopter@x" : String) ≠ "") ∧
    ((⟨"p1", some "buyer@x"⟩ : PurchaseRecord).buyerEmail = some "buyer@x") ∧
    (("buyer@x" : String) ≠ "") ∧
    (findAcceptedAdoption [⟨"p1", "pending", some "other@x"⟩] "p1" = none) ∧
    (findPurchaseRecord [] "p1" = none) ∧
    (findAcceptedAdoption [⟨"p1", "accepted", some ""⟩] "p1" =
        some ⟨"p1", "accepted", some ""⟩) ∧
    (findPurchaseRecord [⟨"p1", none⟩] "p1" = some ⟨"p1", none⟩) ∧
    ((⟨"p1", "accepted", some ""⟩ : AdoptionRecord).adopterEmail = none ∨
      (⟨"p1", "accepted", some ""⟩ : AdoptionRecord).adopterEmail = some "") ∧
    ((⟨"p1", none⟩ : PurchaseRecord).buyerEmail = none ∨
      (⟨"p1", none⟩ : PurchaseRecord).buyerEmail = some "") ∧
    (((processEvent (okAdoptionStore [⟨"p1", "accepted", some "adopter@x"⟩])
          (okPurchaseStore [⟨"p1", some "buyer@x"⟩]) (fun _ => true)
          ⟨"p1", "Bella", "rabies", "Rabies", 0, 10⟩).1.map (fun m => m.1.toAddr) =
        ["adopter@x", "buyer@x"] ∧
      (processEvent (okAdoptionStore [⟨"p1", "accepted", some "adopter@x"⟩])
          (okPurchaseStore [⟨"p1", some "buyer@x"⟩]) (fun _ => true)
          ⟨"p1", "Bella", "rabies", "Rabies", 0, 10⟩).2 = false) ∧
    ((processEvent (okAdoptionStore [⟨"p1", "pending", some "other@x"⟩])
          (okPurchaseStore []) (fun _ => true)
          ⟨"p1", "Bella", "rabies", "Rabies", 0, 10⟩).1 = [] ∧
      (processEvent (okAdoptionStore [⟨"p1", "pending", some "other@x"⟩])
          (okPurchaseStore []) (fun _ => true)
          ⟨"p1", "Bella", "rabies", "Rabies", 0, 10⟩).2 = false) ∧
    ((processEvent (okAdoptionStore [⟨"p1", "accepted", some ""⟩])
          (okPurchaseStore [⟨"p1", none⟩]) (fun _ => true)
          ⟨"p1", "Bella", "rabies", "Rabies", 0, 10⟩).1 = [] ∧
      (processEvent (okAdoptionStore [⟨"p1", "accepted", some ""⟩])
          (okPurchaseStore [⟨"p1", none⟩]) (fun _ => true)
          ⟨"p1", "Bella", "rabies", "Rabies", 0, 10⟩).2 = false)) :=
  ⟨by decide, by decide, by decide, by decide, by decide, by decide, by decide, by decide,
   by decide, by decide, by decide, by decide,
   C5_dispatch_recipients ⟨"p1", "Bella", "rabies", "Rabies", 0, 10⟩ (fun _ => true)
     [⟨"p1", "accepted", some "adopter@x"⟩] [⟨"p1", "pending", some "other@x"⟩]
     [⟨"p1", "accepted", some ""⟩] [⟨"p1", some "buyer@x"⟩] [] [⟨"p1", none⟩]
     ⟨"p1", "accepted", some "adopter@x"⟩ ⟨"p1", "accepted", some ""⟩
     ⟨"p1", some "buyer@x"⟩ ⟨"p1", none⟩ "adopter@x" "buyer@x"
     (by decide) (by decide) (by decide) (by decide) (by decide) (by decide)
     (by decide) (by decide) (by decide) (by decide) (by decide) (by decide)⟩

/-- Claim C6: every emitted DueEvent carries a vaccine type whose
case-folded trimmed form is its interval-table key, so a vaccine type
absent from the interval table never produces a DueEvent for any pet or
evaluation date; and a table key with zero matching entries for a pet
produces no event for that pet. -/
theorem C6_unknown_or_unmatched_no_event (pets : List Pet) (intervals : List (String × Int))
    (asOf tom day : Int) (k ks : String) (p : Pet)
    (h1 : k ∉ intervals.map Prod.fst)
    (h3 : entriesForType p.vaccinations ks = []) :
    (∀ ev ∈ computeDueEvents pets intervals asOf,
      foldKey ev.vaccineTypeRaw = ev.key ∧ ev.key ∈ intervals.map Prod.fst ∧ ev.key ≠ k) ∧
    (∀ ev ∈ dueEventsForPet intervals tom day p, ev.key ≠ ks) := by
  constructor
  · intro ev hev
    unfold computeDueEvents at hev
    simp only [List.mem_flatMap] at hev
    obtain ⟨q, hq, hev2⟩ := hev
    unfold dueEventsForPet at hev2
    rw [List.mem_filterMap] at hev2
    obtain ⟨kv, hkv, hevp⟩ := hev2
    obtain ⟨-, -, hkey, -, -, hfold, -, -, -⟩ := evalPair_eq_some hevp
    refine ⟨by rw [hfold, hkey], ?_, ?_⟩
    · rw [hkey]
      exact List.mem_map_of_mem Prod.fst hkv
    · intro hkk
      apply h1
      rw [← hkk, hkey]
      exact List.mem_map_of_mem Prod.fst hkv
  · intro ev hev
    unfold dueEventsForPet at hev
    rw [List.mem_filterMap] at hev
    obtain ⟨kv, hkv, hevp⟩ := hev
    obtain ⟨-, -, hkey, hne, -⟩ := evalPair_eq_some hevp
    intro hkk
    apply hne
    rw [hkey] at hkk
    rw [hkk]
    exact h3

/-- Witness for C6 at a concrete input: key "foo" is not in the table, and
the pet has no entry matching the table key "rabies". -/
theorem C6_unknown_or_unmatched_no_event_witness :
    (("foo" : String) ∉ ([("rabies", (10 : Int))].map Prod.fst)) ∧
    (entriesForType [(⟨some "Lepto", some (some 0)⟩ : VaccEntry)] "rabies" = []) ∧
    ((∀ ev ∈ computeDueEvents [⟨"p1", "Bella", [⟨some "Lepto", some (some 0)⟩]⟩]
        [("rabies", 10)] 9,
      foldKey ev.vaccineTypeRaw = ev.key ∧ ev.key ∈ [("rabies", (10 : Int))].map Prod.fst ∧
        ev.key ≠ "foo") ∧
     (∀ ev ∈ dueEventsForPet [("rabies", 10)] 10 11
        ⟨"p1", "Bella", [⟨some "Lepto", some (some 0)⟩]⟩, ev.key ≠ "rabies")) :=
  ⟨by decide, by decide,
   C6_unknown_or_unmatched_no_event [⟨"p1", "Bella", [⟨some "Lepto", some (some 0)⟩]⟩]
     [("rabies", 10)] 9 10 11 "foo" "rabies"
     ⟨"p1", "Bella", [⟨some "Lepto", some (some 0)⟩]⟩ (by decide) (by decide)⟩

/-- The attempted email of `sendReminderEmail` does not depend on the
transport outcome. -/
theorem sendReminderEmail_transport (t1 t2 : Email → Bool) (recipient : Option String)
    (petName vaccineType : String) (vaccineDate : Int) :
    (sendReminderEmail t1 recipient petName vaccineType vaccineDate).map Prod.fst =
      (sendReminderEmail t2 recipient petName vaccineType vaccineDate).map Prod.fst := by
  cases recipient with
  | none => rfl
  | some s =>
    by_cases hs : s == ""
    · simp [sendReminderEmail, hs]
    · simp [sendReminderEmail, hs]

/-- Adopter-side attempted emails do not depend on the transport outcome. -/
theorem mailsForAdoption_transport (t1 t2 : Email → Bool) (ev : DueEvent)
    (o : Option AdoptionRecord) :
    (mailsForAdoption t1 ev o).map Prod.fst = (mailsForAdoption t2 ev o).map Prod.fst := by
  cases o with
  | none => rfl
  | some a =>
    by_cases hta : truthyOpt a.adopterEmail
    · simp only [mailsForAdoption, if_pos hta]
      exact sendReminderEmail_transport t1 t2 _ _ _ _
    · simp [mailsForAdoption, hta]

/-- Buyer-side attempted emails do not depend on the transport outcome. -/
theorem mailsForPurchase_transport (t1 t2 : Email → Bool) (ev : DueEvent)
    (o : Option PurchaseRecord) :
    (mailsForPurchase t1 ev o).map Prod.fst = (mailsForPurchase t2 ev o).map Prod.fst := by
  cases o with
  | none => rfl
  | some p =>
    by_cases htp : truthyOpt p.buyerEmail
    · simp only [mailsForPurchase, if_pos htp]
      exact sendReminderEmail_transport t1 t2 _ _ _ _
    · simp [mailsForPurchase, htp]

/-- The attempted emails and the error flag of one dispatch unit do not
depend on transport outcomes. -/
theorem processEvent_transport (findA : String → Except Unit (Option AdoptionRecord))
    (findP : String → Except Unit (Option PurchaseRecord)) (t1 t2 : Email → Bool)
    (ev : DueEvent) :
    (processEvent findA findP t1 ev).1.map Prod.fst =
      (processEvent findA findP t2 ev).1.map Prod.fst ∧
    (processEvent findA findP t1 ev).2 = (processEvent findA findP t2 ev).2 := by
  unfold processEvent
  cases findA ev.petId with
  | error e => simp
  | ok adoption =>
    cases findP ev.petId with
    | error e =>
      constructor
      · exact mailsForAdoption_transport t1 t2 ev adoption
      · rfl
    | ok purchase =>
      constructor
      · simp only [List.map_append]
        rw [mailsForAdoption_transport t1 t2 ev adoption,
          mailsForPurchase_transport t1 t2 ev purchase]
      · rfl

/-- Unfolding one step of the dispatch loop. -/
theorem runPass_cons (findA : String → Except Unit (Option AdoptionRecord))
    (findP : String → Except Unit (Option PurchaseRecord)) (t : Email → Bool)
    (ev : DueEvent) (rest : List DueEvent) :
    runPass findA findP t (ev :: rest) =
      if (processEvent findA findP t ev).2 then (processEvent findA findP t ev).1
      else (processEvent findA findP t ev).1 ++ runPass findA findP t rest := by
  conv_lhs => unfold runPass

/-- Claim C8, counterexample: a store query error in one unit of work is NOT
isolated to that unit.  With an adoption store that throws for pet "p1" and
works for pet "p2", the pass over the two due occurrences attempts no email
at all — in particular pet "p2"'s buyer occurrence, which when processed on
its own produces one email, is never reached, because the single
`try`/`catch` wraps the whole pass. -/
theorem C8_store_error_not_isolated_cex :
    runPass
      (fun pid => if pid == "p1" then .error () else
        .ok (findAcceptedAdoption [⟨"p2", "accepted", some "a2@x"⟩] pid))
      (fun _ => .ok none) (fun _ => true)
      [⟨"p1", "Arlo", "rabies", "Rabies", 0, 10⟩,
       ⟨"p2", "Bella", "rabies", "Rabies", 0, 10⟩] = [] ∧
    (runPass
      (fun pid => if pid == "p1" then .error () else
        .ok (findAcceptedAdoption [⟨"p2", "accepted", some "a2@x"⟩] pid))
      (fun _ => .ok none) (fun _ => true)
      [⟨"p2", "Bella", "rabies", "Rabies", 0, 10⟩]).map (fun m => m.1.toAddr) = ["a2@x"] := by
  constructor
  · decide
  · decide

/-- Claim C8 as amended: a MAIL transport failure is isolated — which emails
the pass attempts (and whether it aborts) never depends on transport
outcomes, so a failed send never blocks sibling dispatches or the rest of
the pass; a STORE query error, however, is caught only by the pass-level
`try`/`catch` and ends the pass: the unit's emails attempted before the
throw are kept and no later pet/vaccine-type pair is processed. -/
theorem C8_mail_isolated_store_aborts (findA : String → Except Unit (Option AdoptionRecord))
    (findP : String → Except Unit (Option PurchaseRecord)) (t1 t2 t : Email → Bool)
    (evs : List DueEvent) (ev : DueEvent) (rest : List DueEvent)
    (pets : List Pet) (intervals : List (String × Int)) (asOf : Int) :
    (runPass findA findP t1 evs).map Prod.fst = (runPass findA findP t2 evs).map Prod.fst ∧
    (sendVaccinationReminders pets intervals asOf findA findP t1).map Prod.fst =
      (sendVaccinationReminders pets intervals asOf findA findP t2).map Prod.fst ∧
    runPass findA findP t (ev :: rest) =
      (processEvent findA findP t ev).1 ++
        (if (processEvent findA findP t ev).2 then [] else runPass findA findP t rest) := by
  have hrun : ∀ l : List DueEvent,
      (runPass findA findP t1 l).map Prod.fst = (runPass findA findP t2 l).map Prod.fst := by
    intro l
    induction l with
    | nil => rfl
    | cons e l ih =>
      rw [runPass_cons, runPass_cons]
      obtain ⟨hmap, hflag⟩ := processEvent_transport findA findP t1 t2 e
      by_cases hf : (processEvent findA findP t1 e).2
      · rw [if_pos hf, if_pos (by rw [← hflag]; exact hf)]
        exact hmap
      · rw [if_neg hf, if_neg (by rw [← hflag]; exact hf)]
        rw [List.map_append, List.map_append, hmap, ih]
  refine ⟨hrun evs, hrun (computeDueEvents pets intervals asOf), ?_⟩
  rw [runPass_cons]
  by_cases hf : (processEvent findA findP t ev).2
  · rw [if_pos hf, if_pos hf, List.append_nil]
  · rw [if_neg hf, if_neg hf]

/-- At most one email is attempted per call of the mail helper. -/
theorem sendReminderEmail_length (t : Email → Bool) (recipient : Option String)
    (petName vaccineType : String) (vaccineDate : Int) :
    (sendReminderEmail t recipient petName vaccineType vaccineDate).length ≤ 1 := by
  cases recipient with
  | none => simp [sendReminderEmail]
  | some s =>
    by_cases hs : s == ""
    · simp [sendReminderEmail, hs]
    · simp [sendReminderEmail, hs]

/-- For one pet, the inner loop enters the notification branch at most once
per interval-table key, because the table's keys are pairwise distinct. -/
theorem dueEventsForPet_key_count (tom day : Int) (p : Pet) (k : String) :
    ∀ intervals : List (String × Int), (intervals.map Prod.fst).Nodup →
      ((dueEventsForPet intervals tom day p).filter (fun ev => ev.key == k)).length ≤ 1 := by
  intro intervals
  induction intervals with
  | nil =>
    intro _
    simp [dueEventsForPet]
  | cons kv l ih =>
    intro hnd
    rw [List.map_cons, List.nodup_cons] at hnd
    unfold dueEventsForPet
    rw [List.filterMap_cons]
    cases hev : evalPair tom day p kv.1 kv.2 with
    | none =>
      simpa [dueEventsForPet] using ih hnd.2
    | some ev =>
      rw [List.filter_cons]
      have hkey : ev.key = kv.1 := (evalPair_eq_some hev).2.2.1
      by_cases hk : kv.1 = k
      · have htail : (List.filterMap (fun q => evalPair tom day p q.1 q.2) l).filter
            (fun ev => ev.key == k) = [] := by
          rw [List.filter_eq_nil_iff]
          intro ev2 hev2
          rw [List.mem_filterMap] at hev2
          obtain ⟨q, hq, hevq⟩ := hev2
          have hkey2 : ev2.key = q.1 := (evalPair_eq_some hevq).2.2.1
          have hqk : q.1 ≠ k := by
            intro hcontra
            exact hnd.1 (by rw [hk, ← hcontra]; exact List.mem_map_of_mem Prod.fst hq)
          simp [hkey2, hqk]
        rw [if_pos (by simp [hkey, hk]), htail]
        simp
      · rw [if_neg (by simp [hkey, hk])]
        simpa [dueEventsForPet] using ih hnd.2

/-- Across pets, the notification branch is entered at most once per
(petId, interval-table key) pair when the pets have distinct ids. -/
theorem flatMap_pair_count (tom day : Int) (intervals : List (String × Int))
    (hnd : (intervals.map Prod.fst).Nodup) (pid k : String) :
    ∀ ps : List Pet, (ps.map Pet.petId).Nodup →
      ((ps.flatMap (dueEventsForPet intervals tom day)).filter
        (fun ev => ev.petId == pid && ev.key == k)).length ≤ 1 := by
  intro ps
  induction ps with
  | nil =>
    intro _
    simp
  | cons p ps ih =>
    intro hps
    rw [List.map_cons, List.nodup_cons] at hps
    rw [List.flatMap_cons, List.filter_append, List.length_append]
    have hpetid : ∀ ev ∈ dueEventsForPet intervals tom day p, ev.petId = p.petId := by
      intro ev hev
      unfold dueEventsForPet at hev
      rw [List.mem_filterMap] at hev
      obtain ⟨q, -, hevq⟩ := hev
      exact (evalPair_eq_some hevq).1
    by_cases hpid : p.petId = pid
    · have htail : (ps.flatMap (dueEventsForPet intervals tom day)).filter
          (fun ev => ev.petId == pid && ev.key == k) = [] := by
        rw [List.filter_eq_nil_iff]
        intro ev hev
        rw [List.mem_flatMap] at hev
        obtain ⟨p2, hp2m, hev2⟩ := hev
        have hevid : ev.petId = p2.petId := by
          unfold dueEventsForPet at hev2
          rw [List.mem_filterMap] at hev2
          obtain ⟨q, -, hevq⟩ := hev2
          exact (evalPair_eq_some hevq).1
        have hne : p2.petId ≠ pid := by
          intro hcontra
          exact hps.1 (by rw [hpid, ← hcontra]; exact List.mem_map_of_mem Pet.petId hp2m)
        simp [hevid, hne]
      rw [htail]
      simp only [List.length_nil, Nat.add_zero]
      have hmono : ((dueEventsForPet intervals tom day p).filter
            (fun ev => ev.petId == pid && ev.key == k)).length ≤
          ((dueEventsForPet intervals tom day p).filter (fun ev => ev.key == k)).length := by
        rw [← List.countP_eq_length_filter, ← List.countP_eq_length_filter]
        exact List.countP_mono_left (fun ev _ h => by
          simp only [Bool.and_eq_true] at h
          exact h.2)
      exact le_trans hmono (dueEventsForPet_key_count tom day p k intervals hnd)
    · have hhead : (dueEventsForPet intervals tom day p).filter
          (fun ev => ev.petId == pid && ev.key == k) = [] := by
        rw [List.filter_eq_nil_iff]
        intro ev hev
        simp [hpetid ev hev, hpid]
      rw [hhead]
      simpa using ih hps.2

/-- Claim C9: within one pass over pets with distinct ids and the
case-folded interval table (whose keys are distinct by construction), each
(pet, vaccine-type key) pair enters the notification branch at most once,
and each such occurrence attempts at most one adopter email and at most one
buyer email. -/
theorem C9_at_most_once_per_pair (tbl : List (String × Int)) (pets : List Pet)
    (asOf : Int) (pid k : String) (transport : Email → Bool) (ev : DueEvent)
    (adoption : Option AdoptionRecord) (purchase : Option PurchaseRecord)
    (hp : (pets.map Pet.petId).Nodup) :
    ((computeDueEvents pets (normalizeIntervals tbl) asOf).filter
      (fun e => e.petId == pid && e.key == k)).length ≤ 1 ∧
    (mailsForAdoption transport ev adoption).length ≤ 1 ∧
    (mailsForPurchase transport ev purchase).length ≤ 1 := by
  refine ⟨?_, ?_, ?_⟩
  · unfold computeDueEvents
    have hp2 : ((pets.filter (fun p => !p.vaccinations.isEmpty)).map Pet.petId).Nodup :=
      List.Nodup.sublist (List.Sublist.map Pet.petId (List.filter_sublist pets)) hp
    exact flatMap_pair_count (asOf + 1) (asOf + 2) (normalizeIntervals tbl)
      (normalizeIntervals_keys_nodup tbl) pid k _ hp2
  · cases adoption with
    | none => simp [mailsForAdoption]
    | some a =>
      by_cases hta : truthyOpt a.adopterEmail
      · simp only [mailsForAdoption, if_pos hta]
        exact sendReminderEmail_length transport _ _ _ _
      · simp [mailsForAdoption, hta]
  · cases purchase with
    | none => simp [mailsForPurchase]
    | some p =>
      by_cases htp : truthyOpt p.buyerEmail
      · simp only [mailsForPurchase, if_pos htp]
        exact sendReminderEmail_length transport _ _ _ _
      · simp [mailsForPurchase, htp]

/-- Witness for C9 at a concrete input. -/
theorem C9_at_most_once_per_pair_witness :
    (([⟨"p1", "Bella", [⟨some "Rabies", some (some 0)⟩]⟩,
       ⟨"p2", "Arlo", [⟨some "Rabies", some (some 0)⟩]⟩] : List Pet).map Pet.petId).Nodup ∧
    (((computeDueEvents
        [⟨"p1", "Bella", [⟨some "Rabies", some (some 0)⟩]⟩,
         ⟨"p2", "Arlo", [⟨some "Rabies", some (some 0)⟩]⟩]
        (normalizeIntervals [("Rabies", 365)]) 364).filter
      (fun e => e.petId == "p1" && e.key == "rabies")).length ≤ 1 ∧
    (mailsForAdoption (fun _ => true) ⟨"p1", "Bella", "rabies", "Rabies", 0, 365⟩
      (some ⟨"p1", "accepted", some "a@x"⟩)).length ≤ 1 ∧
    (mailsForPurchase (fun _ => true) ⟨"p1", "Bella", "rabies", "Rabies", 0, 365⟩
      (some ⟨"p1", some "b@x"⟩)).length ≤ 1) :=
  ⟨by decide,
   C9_at_most_once_per_pair [("Rabies", 365)]
     [⟨"p1", "Bella", [⟨some "Rabies", some (some 0)⟩]⟩,
      ⟨"p2", "Arlo", [⟨some "Rabies", some (some 0)⟩]⟩]
     364 "p1" "rabies" (fun _ => true) ⟨"p1", "Bella", "rabies", "Rabies", 0, 365⟩
     (some ⟨"p1", "accepted", some "a@x"⟩) (some ⟨"p1", some "b@x"⟩) (by decide)⟩
